import Mathlib

/-
Verification development for uioctl.c, a userspace-I/O manipulation
utility.  The relevant parts of the program are shallowly embedded:

- the monitor loop (function `monitor` in the source) becomes `monRun`,
  a fuel-indexed loop over an oracle `xfer : Nat -> Nat x Nat` giving the
  number of bytes transferred by the pwrite (acknowledge) and pread
  (wait) calls of each iteration; it produces the list of device events
  and the exit outcome (some true = exit success, some false = exit
  failure, none = still looping when the fuel runs out);

- the read/write core of `main` becomes `uioctl`, which first performs
  the region and width checks done during option processing, then emits
  the open / mmap / access / munmap / close event trace exactly as the
  source does, threading the mapped memory (a byte map Nat -> Nat);

- the 4-byte acknowledge buffer startval, the little-endian decoding of
  the interrupt-count buffer, and the word read/write on the mapping are
  embedded as leDecode, monitorCount (with signed-char promotion, as
  char is signed on the common ABIs) and readWord / writeWord.
-/

/-- Little-endian interpretation of a 4-byte buffer, bytes given
least-significant first, all bytes unsigned. -/
def leDecode (b0 b1 b2 b3 : Nat) : Nat :=
  b0 + 256 * b1 + 65536 * b2 + 16777216 * b3

/-- The acknowledge buffer of the monitor loop, from the source line
char startval[] = 0,0,0,1 written to offset 0 of the device file. -/
def startval : List Nat := [0, 0, 0, 1]

/-- Value of a byte read into a (signed) char: on the common ABIs where
char is signed, bytes at or above 128 become negative on promotion. -/
def scharVal (b : Nat) : Int :=
  if b < 128 then (b : Int) else (b : Int) - 256

/-- The interrupt count the monitor loop reports for a 4-byte buffer,
exactly as the source computes it:
buf[3] * 16777216 + buf[2] * 65536 + buf[1] * 256 + buf[0]
with buf an array of char, hence signed on the common ABIs. -/
def monitorCount (b0 b1 b2 b3 : Nat) : Int :=
  scharVal b3 * 16777216 + scharVal b2 * 65536 + scharVal b1 * 256 + scharVal b0

/-- Memory is a byte map.  Reading one word at byte address a is the
4-byte native-order (little-endian host) load the source performs with
value = *((unsigned *)(ptr + addr)). -/
def readWord (mem : Nat → Nat) (a : Nat) : Nat :=
  mem a + 256 * mem (a + 1) + 65536 * mem (a + 2) + 16777216 * mem (a + 3)

/-- Storing one 4-byte word at byte address a, the source's
*((unsigned *)(ptr + addr)) = value. -/
def writeWord (mem : Nat → Nat) (a v : Nat) : Nat → Nat :=
  fun b =>
    if b = a then v % 256
    else if b = a + 1 then v / 256 % 256
    else if b = a + 2 then v / 65536 % 256
    else if b = a + 3 then v / 16777216 % 256
    else mem b

/-- The read loop of main: for count iterations, read a word at the
current address, emit the (address, value) pair, advance by width. -/
def readWords (mem : Nat → Nat) (a w : Nat) : Nat → List (Nat × Nat)
  | 0 => []
  | n + 1 => (a, readWord mem a) :: readWords mem (a + w) w n

/-- Device-file events of one monitor iteration: the acknowledge pwrite
and the blocking wait pread, tagged with the iteration index. -/
inductive MonEvent where
  | ack (i : Nat)
  | wait (i : Nat)
deriving DecidableEq

/-- Iteration index of a monitor event. -/
def iterOf : MonEvent → Nat
  | MonEvent.ack i => i
  | MonEvent.wait i => i

/-- The monitor do-while loop.  Iteration i performs the acknowledge
write (event ack i); if it did not transfer exactly 4 bytes the process
exits with failure.  It then performs the blocking wait read (event
wait i); if that did not transfer exactly 4 bytes the process exits with
failure.  Otherwise the loop repeats while forever is set, and exits
with success after the first iteration when it is not.  Fuel bounds how
many iterations we observe; none means the loop is still running. -/
def monRun (xfer : Nat → Nat × Nat) (forever : Bool) :
    Nat → Nat → List MonEvent × Option Bool
  | 0, _ => ([], none)
  | fuel + 1, i =>
    if (xfer i).1 ≠ 4 then ([MonEvent.ack i], some false)
    else if (xfer i).2 ≠ 4 then ([MonEvent.ack i, MonEvent.wait i], some false)
    else if forever then
      let r := monRun xfer forever fuel (i + 1)
      (MonEvent.ack i :: MonEvent.wait i :: r.1, r.2)
    else ([MonEvent.ack i, MonEvent.wait i], some true)

/-- Operation modes of the program. -/
inductive Mode where
  | read
  | write
  | monitor
  | list
deriving DecidableEq

/-- A validated request: mode, region index, word width, word count,
start address, value to write, and the forever flag (cleared by the
single-shot option -x). -/
structure Req where
  mode : Mode
  region : Nat
  width : Nat
  count : Nat
  addr : Nat
  value : Nat
  forever : Bool

/-- The environment of one run: whether open and mmap succeed, the
byte-transfer oracle for the monitor loop, and the monitor fuel. -/
structure Env where
  openOk : Bool
  mmapOk : Bool
  xfer : Nat → Nat × Nat
  fuel : Nat

/-- Observable device events of a run of main. -/
inductive Ev where
  | openDev
  | mmapDev (len : Nat)
  | readAcc (a v : Nat)
  | writeAcc (a : Nat)
  | munmapDev (len : Nat)
  | closeDev
  | ackDev (i : Nat)
  | waitDev (i : Nat)
deriving DecidableEq

/-- Injection of monitor events into run events. -/
def evOf : MonEvent → Ev
  | MonEvent.ack i => Ev.ackDev i
  | MonEvent.wait i => Ev.waitDev i

/-- The program core after argument parsing, as the source performs it:
the region and width checks run during option processing, before any
file is opened; list mode fails before any I/O; monitor mode opens the
file and runs the monitor loop, closing the file only when the loop ends
normally; read/write mode opens the file, maps count * width + addr
bytes, performs the accesses, then unmaps map_size = count * width bytes
(as the source does) and closes the file; on mmap failure the source
returns without closing the file.  Returns the event trace, the exit
code (none while the monitor loop is still running) and the final
memory. -/
def uioctl (req : Req) (env : Env) (mem : Nat → Nat) :
    List Ev × Option Nat × (Nat → Nat) :=
  if req.region ≠ 0 then ([], some 1, mem)
  else if req.width ≠ 4 then ([], some 1, mem)
  else
    match req.mode with
    | Mode.list => ([], some 1, mem)
    | Mode.monitor =>
      if env.openOk then
        match monRun env.xfer req.forever env.fuel 0 with
        | (evs, some true) =>
          (Ev.openDev :: (evs.map evOf ++ [Ev.closeDev]), some 0, mem)
        | (evs, some false) => (Ev.openDev :: evs.map evOf, some 1, mem)
        | (evs, none) => (Ev.openDev :: evs.map evOf, none, mem)
      else ([Ev.openDev], some 1, mem)
    | Mode.read =>
      if env.openOk then
        if env.mmapOk then
          (Ev.openDev :: Ev.mmapDev (req.count * req.width + req.addr) ::
            ((readWords mem req.addr req.width req.count).map
              (fun p => Ev.readAcc p.1 p.2) ++
              [Ev.munmapDev (req.count * req.width), Ev.closeDev]),
            some 0, mem)
        else
          ([Ev.openDev, Ev.mmapDev (req.count * req.width + req.addr)],
            some 1, mem)
      else ([Ev.openDev], some 1, mem)
    | Mode.write =>
      if env.openOk then
        if env.mmapOk then
          (Ev.openDev :: Ev.mmapDev (req.count * req.width + req.addr) ::
            [Ev.writeAcc req.addr, Ev.munmapDev (req.count * req.width),
              Ev.closeDev],
            some 0, writeWord mem req.addr req.value)
        else
          ([Ev.openDev, Ev.mmapDev (req.count * req.width + req.addr)],
            some 1, mem)
      else ([Ev.openDev], some 1, mem)

/-- All-zero memory, used for concrete evaluations. -/
def m0 : Nat → Nat := fun _ => 0

/-- Transfer oracle where every pwrite and pread moves 4 bytes. -/
def xferOk : Nat → Nat × Nat := fun _ => (4, 4)

/-- Transfer oracle whose first wait read is short (3 bytes). -/
def xferShortRead : Nat → Nat × Nat := fun i => (4, if i = 0 then 3 else 4)

/-- A read request: region 0, width 4, one word at address 4. -/
def reqRead1 : Req :=
  { mode := Mode.read, region := 0, width := 4, count := 1, addr := 4,
    value := 0, forever := true }

/-- A single-shot monitor request. -/
def reqMon1 : Req :=
  { mode := Mode.monitor, region := 0, width := 4, count := 1, addr := 0,
    value := 0, forever := false }

/-- A write request with word count 0 at address 4. -/
def reqWrite0 : Req :=
  { mode := Mode.write, region := 0, width := 4, count := 0, addr := 4,
    value := 7, forever := true }

/-- A write request with word count 3 at address 4. -/
def reqWrite3 : Req :=
  { mode := Mode.write, region := 0, width := 4, count := 3, addr := 4,
    value := 3735928559, forever := true }

/-- A request with an unsupported region index. -/
def reqBadRegion : Req :=
  { mode := Mode.read, region := 2, width := 4, count := 1, addr := 0,
    value := 0, forever := true }

/-- Environment where open and mmap succeed. -/
def envOk : Env := { openOk := true, mmapOk := true, xfer := xferOk, fuel := 3 }

/-- Environment where open succeeds but mmap fails. -/
def envNoMmap : Env :=
  { openOk := true, mmapOk := false, xfer := xferOk, fuel := 3 }

/-- Claim C1: the 4 acknowledge bytes, decoded little-endian as the
protocol decodes the interrupt count, would equal 1 per the claim; the
source buffer 0,0,0,1 in fact decodes to 16777216 (it encodes 1 in
big-endian byte order), so the claim fails on the code. -/
theorem c1_ack_bytes_not_one :
    leDecode (startval.getD 0 0) (startval.getD 1 0) (startval.getD 2 0)
      (startval.getD 3 0) = 16777216 ∧
    leDecode (startval.getD 0 0) (startval.getD 1 0) (startval.getD 2 0)
      (startval.getD 3 0) ≠ 1 := by
  constructor
  · rfl
  · decide

/-- Claim C3: the monitor's reported count should be the unsigned
little-endian value of the wait buffer for all byte values; for the
buffer 128,0,0,0 (interrupt count 128) the source's char arithmetic
yields -128, not 128, because char is signed on the common ABIs. -/
theorem c3_monitor_decode_signed :
    monitorCount 128 0 0 0 = -128 ∧
    leDecode 128 0 0 0 = 128 ∧
    monitorCount 128 0 0 0 ≠ (leDecode 128 0 0 0 : Int) := by
  refine ⟨by decide, by decide, by decide⟩

/-- Claim C4: writing a 32-bit value at an address and then reading one
word (width 4) at the same address yields exactly that value. -/
theorem c4_round_trip (mem : Nat → Nat) (a v : Nat) (h : v < 4294967296) :
    readWords (writeWord mem a v) a 4 1 = [(a, v)] := by
  have h1 : a + 1 ≠ a := by omega
  have h2 : a + 2 ≠ a := by omega
  have h3 : a + 2 ≠ a + 1 := by omega
  have h4 : a + 3 ≠ a := by omega
  have h5 : a + 3 ≠ a + 1 := by omega
  have h6 : a + 3 ≠ a + 2 := by omega
  simp [readWords, readWord, writeWord, h1, h2, h3, h4, h5, h6]
  omega

/-- Witness for claim C4 at address 8 and value 0xDEADBEEF. -/
theorem c4_round_trip_witness :
    3735928559 < 4294967296 ∧
    readWords (writeWord m0 8 3735928559) 8 4 1 = [(8, 3735928559)] :=
  ⟨by decide, c4_round_trip m0 8 3735928559 (by decide)⟩

/-- Claim C8: a request with region index other than 0 or width other
than 4 is rejected with exit code 1 and an empty device-event trace: no
open, mmap, read or write happens. -/
theorem c8_rejection (req : Req) (env : Env) (mem : Nat → Nat)
    (h : req.region ≠ 0 ∨ req.width ≠ 4) :
    uioctl req env mem = ([], some 1, mem) := by
  rcases h with h | h
  · simp [uioctl, h]
  · by_cases hr : req.region = 0
    · simp [uioctl, hr, h]
    · simp [uioctl, hr]

/-- Witness for claim C8 on a request with region index 2. -/
theorem c8_rejection_witness :
    uioctl reqBadRegion envOk m0 = ([], some 1, m0) :=
  c8_rejection reqBadRegion envOk m0 (Or.inl (by decide))

/-- The read loop emits as many pairs as the word count. -/
theorem readWords_length (mem : Nat → Nat) (w : Nat) :
    ∀ (n a : Nat), (readWords mem a w n).length = n := by
  intro n
  induction n with
  | zero => intro a; rfl
  | succ k ih => intro a; simp [readWords, ih]

/-- The i-th pair of the read loop: address a + 4 * i and the word of
the mapping at that address. -/
theorem readWords_get (mem : Nat → Nat) :
    ∀ (n a i : Nat), i < n →
      (readWords mem a 4 n).get? i =
        some (a + 4 * i, readWord mem (a + 4 * i)) := by
  intro n
  induction n with
  | zero => intro a i h; omega
  | succ k ih =>
    intro a i h
    cases i with
    | zero => simp [readWords]
    | succ j =>
      have hj := ih (a + 4) j (by omega)
      have e : a + 4 + 4 * j = a + 4 * (j + 1) := by omega
      rw [e] at hj
      simpa [readWords] using hj

/-- Every pair emitted by the read loop is (a + 4 * i, word there) for
some i below the count. -/
theorem readWords_mem_ex (mem : Nat → Nat) :
    ∀ (n a : Nat) (p : Nat × Nat), p ∈ readWords mem a 4 n →
      ∃ i, i < n ∧ p = (a + 4 * i, readWord mem (a + 4 * i)) := by
  intro n
  induction n with
  | zero => intro a p h; simp [readWords] at h
  | succ k ih =>
    intro a p h
    rw [readWords] at h
    rcases List.mem_cons.mp h with h0 | h1
    · exact ⟨0, by omega, by simpa using h0⟩
    · rcases ih (a + 4) p h1 with ⟨i, hi, hp⟩
      refine ⟨i + 1, by omega, ?_⟩
      have e : a + 4 + 4 * i = a + 4 * (i + 1) := by omega
      rw [hp, e]

/-- The addresses emitted by the read loop are strictly ascending. -/
theorem readWords_chain (mem : Nat → Nat) :
    ∀ (n a : Nat),
      List.Chain' (fun p q : Nat × Nat => p.1 < q.1) (readWords mem a 4 n) := by
  intro n
  induction n with
  | zero => intro a; simp [readWords]
  | succ k ih =>
    intro a
    cases k with
    | zero => simp [readWords]
    | succ m =>
      rw [readWords, readWords]
      refine List.chain'_cons.mpr ⟨by omega, ?_⟩
      have h := ih (a + 4)
      rw [readWords] at h
      exact h

/-- A read-access event coming from the mapped read loop names an
address of the form start + 4 * i with i below the count. -/
theorem readAcc_mem_map (mem : Nat → Nat) (n A a v : Nat)
    (h : Ev.readAcc a v ∈
      (readWords mem A 4 n).map (fun p => Ev.readAcc p.1 p.2)) :
    ∃ i, i < n ∧ a = A + 4 * i := by
  rcases List.mem_map.mp h with ⟨p, hp, he⟩
  rcases readWords_mem_ex mem n A p hp with ⟨i, hi, hq⟩
  refine ⟨i, hi, ?_⟩
  rw [hq] at he
  injection he with h1 h2
  exact h1.symm

/-- Claim C5: the multi-word read at start address A with width 4 and
count N emits exactly N (address, value) pairs; the i-th pair is
(A + 4 * i, word of the mapping there), so the addresses are strictly
ascending from A in steps of 4. -/
theorem c5_read_sequence (mem : Nat → Nat) (A N : Nat) :
    (readWords mem A 4 N).length = N ∧
    (∀ i, i < N →
      (readWords mem A 4 N).get? i =
        some (A + 4 * i, readWord mem (A + 4 * i))) ∧
    List.Chain' (fun p q : Nat × Nat => p.1 < q.1) (readWords mem A 4 N) :=
  ⟨readWords_length mem 4 N A,
   fun i h => readWords_get mem N A i h,
   readWords_chain mem N A⟩

/-- Witness for claim C5: the second pair of a 3-word read at address 8
over all-zero memory. -/
theorem c5_read_sequence_witness :
    (readWords m0 8 4 3).get? 1 = some (12, 0) := by
  have h := (c5_read_sequence m0 8 3).2.1 1 (by decide)
  simpa [m0, readWord] using h

/-- Claim C2: resource release diverges from the claim.  On the
successful read with addr 4, width 4, count 1 the trace maps 8 bytes but
unmaps only 4 (the source passes map_size, omitting addr, to munmap),
so the full mapped length is never unmapped; and when mmap fails the
trace ends after the failed mapping with no close of the already-opened
file handle. -/
theorem c2_cleanup_divergence :
    (uioctl reqRead1 envOk m0).1 =
      [Ev.openDev, Ev.mmapDev 8, Ev.readAcc 4 0, Ev.munmapDev 4,
        Ev.closeDev] ∧
    Ev.munmapDev 8 ∉ (uioctl reqRead1 envOk m0).1 ∧
    (uioctl reqRead1 envNoMmap m0).1 = [Ev.openDev, Ev.mmapDev 8] ∧
    Ev.closeDev ∉ (uioctl reqRead1 envNoMmap m0).1 := by
  refine ⟨by decide, by decide, by decide, by decide⟩

/-- Claim C9 (amended): for region 0 and width 4, with open and mmap
succeeding, the mapping has length count * width + addr; every byte
range touched by the read loop lies within that length, and the single
write's byte range lies within it provided the word count is at least
one. -/
theorem uioctl_read_trace (req : Req) (env : Env) (mem : Nat → Nat)
    (h1 : req.region = 0) (h2 : req.width = 4) (hm : req.mode = Mode.read)
    (h3 : env.openOk = true) (h4 : env.mmapOk = true) :
    (uioctl req env mem).1 =
      Ev.openDev :: Ev.mmapDev (req.count * req.width + req.addr) ::
        ((readWords mem req.addr req.width req.count).map
          (fun p => Ev.readAcc p.1 p.2) ++
          [Ev.munmapDev (req.count * req.width), Ev.closeDev]) := by
  simp [uioctl, h1, h2, hm, h3, h4]

theorem uioctl_write_trace (req : Req) (env : Env) (mem : Nat → Nat)
    (h1 : req.region = 0) (h2 : req.width = 4) (hm : req.mode = Mode.write)
    (h3 : env.openOk = true) (h4 : env.mmapOk = true) :
    (uioctl req env mem).1 =
      [Ev.openDev, Ev.mmapDev (req.count * req.width + req.addr),
        Ev.writeAcc req.addr, Ev.munmapDev (req.count * req.width),
        Ev.closeDev] ∧
    (uioctl req env mem).2.2 = writeWord mem req.addr req.value := by
  constructor
  · simp [uioctl, h1, h2, hm, h3, h4]
  · simp [uioctl, h1, h2, hm, h3, h4]

theorem c9_mapping_length (req : Req) (env : Env) (mem : Nat → Nat)
    (h1 : req.region = 0) (h2 : req.width = 4)
    (h3 : env.openOk = true) (h4 : env.mmapOk = true)
    (h5 : req.mode = Mode.read ∨ (req.mode = Mode.write ∧ 1 ≤ req.count)) :
    Ev.mmapDev (req.count * req.width + req.addr) ∈ (uioctl req env mem).1 ∧
    (∀ a v, Ev.readAcc a v ∈ (uioctl req env mem).1 →
      a + req.width ≤ req.count * req.width + req.addr) ∧
    (∀ a, Ev.writeAcc a ∈ (uioctl req env mem).1 →
      a + req.width ≤ req.count * req.width + req.addr) := by
  rcases h5 with hm | ⟨hm, hc⟩
  · rw [uioctl_read_trace req env mem h1 h2 hm h3 h4]
    refine ⟨by simp, ?_, ?_⟩
    · intro a v hv
      simp only [List.mem_cons, List.mem_append, List.mem_singleton] at hv
      rcases hv with hv | hv | hv | hv | hv
      · simp at hv
      · simp at hv
      · rw [h2] at hv
        rcases readAcc_mem_map mem req.count req.addr a v hv with ⟨i, hi, ha⟩
        rw [h2]
        omega
      · simp at hv
      · simp at hv
    · intro a hv
      simp [List.mem_map] at hv
  · rw [(uioctl_write_trace req env mem h1 h2 hm h3 h4).1]
    refine ⟨by simp, ?_, ?_⟩
    · intro a v hv
      simp at hv
    · intro a hv
      simp at hv
      rw [hv, h2]
      omega

/-- Claim C9, counterexample to the claim as stated: a write request
with word count 0 at address 4 maps 0 * 4 + 4 = 4 bytes, yet the write
touches bytes 4..7, beyond the mapped length, so not every accessed
offset lies within the mapped length. -/
theorem c9_counterexample :
    Ev.mmapDev (reqWrite0.count * reqWrite0.width + reqWrite0.addr) ∈
      (uioctl reqWrite0 envOk m0).1 ∧
    Ev.writeAcc 4 ∈ (uioctl reqWrite0 envOk m0).1 ∧
    reqWrite0.count * reqWrite0.width + reqWrite0.addr = 4 ∧
    ¬(4 + reqWrite0.width ≤ reqWrite0.count * reqWrite0.width +
      reqWrite0.addr) := by
  refine ⟨by decide, by decide, by decide, by decide⟩

/-- Witness for claim C9 on a write request with word count 3 at
address 4: the written byte range fits under the mapped length. -/
theorem c9_mapping_length_witness :
    4 + reqWrite3.width ≤ reqWrite3.count * reqWrite3.width +
      reqWrite3.addr :=
  (c9_mapping_length reqWrite3 envOk m0 rfl rfl rfl rfl
    (Or.inr ⟨rfl, by decide⟩)).2.2 4 (by decide)

/-- Claim C10: in write mode the final memory is exactly one stored
word at the start address, independent of the requested word count;
every byte outside addr..addr+3 is unchanged, and the only write access
in the trace is at the start address. -/
theorem c10_write_frame (req : Req) (env : Env) (mem : Nat → Nat)
    (h1 : req.region = 0) (h2 : req.width = 4) (hm : req.mode = Mode.write)
    (h3 : env.openOk = true) (h4 : env.mmapOk = true) :
    (uioctl req env mem).2.2 = writeWord mem req.addr req.value ∧
    (∀ b, b < req.addr ∨ req.addr + 4 ≤ b →
      (uioctl req env mem).2.2 b = mem b) ∧
    Ev.writeAcc req.addr ∈ (uioctl req env mem).1 ∧
    (∀ a, Ev.writeAcc a ∈ (uioctl req env mem).1 → a = req.addr) := by
  have ht := uioctl_write_trace req env mem h1 h2 hm h3 h4
  refine ⟨ht.2, ?_, ?_, ?_⟩
  · intro b hb
    rw [ht.2]
    have hb1 : b ≠ req.addr := by omega
    have hb2 : b ≠ req.addr + 1 := by omega
    have hb3 : b ≠ req.addr + 2 := by omega
    have hb4 : b ≠ req.addr + 3 := by omega
    simp [writeWord, hb1, hb2, hb3, hb4]
  · rw [ht.1]; simp
  · intro a hv
    rw [ht.1] at hv
    simpa using hv

/-- Witness for claim C10: after the write at address 4, byte 0 of the
memory is unchanged. -/
theorem c10_write_frame_witness :
    (uioctl reqWrite3 envOk m0).2.2 0 = m0 0 :=
  (c10_write_frame reqWrite3 envOk m0 rfl rfl rfl rfl rfl).2.1 0
    (Or.inl (by decide))

/-- Unfolding: an iteration whose acknowledge write is short. -/
theorem monRun_succ_wfail (xf : Nat → Nat × Nat) (fv : Bool) (k i : Nat)
    (h1 : (xf i).1 ≠ 4) :
    monRun xf fv (k + 1) i = ([MonEvent.ack i], some false) := by
  simp [monRun, h1]

/-- Unfolding: an iteration whose wait read is short. -/
theorem monRun_succ_rfail (xf : Nat → Nat × Nat) (fv : Bool) (k i : Nat)
    (h1 : (xf i).1 = 4) (h2 : (xf i).2 ≠ 4) :
    monRun xf fv (k + 1) i =
      ([MonEvent.ack i, MonEvent.wait i], some false) := by
  simp [monRun, h1, h2]

/-- Unfolding: a successful single-shot iteration ends the loop. -/
theorem monRun_succ_once (xf : Nat → Nat × Nat) (k i : Nat)
    (h1 : (xf i).1 = 4) (h2 : (xf i).2 = 4) :
    monRun xf false (k + 1) i =
      ([MonEvent.ack i, MonEvent.wait i], some true) := by
  simp [monRun, h1, h2]

/-- Unfolding: a successful iteration of the forever loop recurses. -/
theorem monRun_succ_loop (xf : Nat → Nat × Nat) (k i : Nat)
    (h1 : (xf i).1 = 4) (h2 : (xf i).2 = 4) :
    monRun xf true (k + 1) i =
      (MonEvent.ack i :: MonEvent.wait i :: (monRun xf true k (i + 1)).1,
        (monRun xf true k (i + 1)).2) := by
  simp [monRun, h1, h2]

/-- If the wait read of iteration j appears in the trace, then the
acknowledge write of iteration j appears strictly before it, and that
write transferred 4 bytes. -/
theorem monRun_wait_split (xf : Nat → Nat × Nat) (fv : Bool) (j : Nat) :
    ∀ fuel i, MonEvent.wait j ∈ (monRun xf fv fuel i).1 →
      (xf j).1 = 4 ∧
      ∃ l1 l2 l3, (monRun xf fv fuel i).1 =
        l1 ++ MonEvent.ack j :: (l2 ++ MonEvent.wait j :: l3) := by
  intro fuel
  induction fuel with
  | zero => intro i h; simp [monRun] at h
  | succ k ih =>
    intro i h
    by_cases h1 : (xf i).1 = 4
    · by_cases h2 : (xf i).2 = 4
      · cases fv
        · rw [monRun_succ_once xf k i h1 h2] at h ⊢
          simp at h
          subst h
          exact ⟨h1, [], [], [], rfl⟩
        · rw [monRun_succ_loop xf k i h1 h2] at h ⊢
          simp only [List.mem_cons] at h
          rcases h with h | h | h
          · exact absurd h (by simp)
          · injection h with hji
            subst hji
            exact ⟨h1, [], [], (monRun xf true k (j + 1)).1, rfl⟩
          · rcases ih (i + 1) h with ⟨hx, l1, l2, l3, heq⟩
            refine ⟨hx, MonEvent.ack i :: MonEvent.wait i :: l1, l2, l3, ?_⟩
            rw [heq]
            rfl
      · rw [monRun_succ_rfail xf fv k i h1 h2] at h ⊢
        simp at h
        subst h
        exact ⟨h1, [], [], [], rfl⟩
    · rw [monRun_succ_wfail xf fv k i h1] at h
      simp at h

/-- If the acknowledge write of iteration j is short and its event is
in the trace, the run ends there with failure: no event of a later
iteration and no wait read of iteration j occurs. -/
theorem monRun_stop_write (xf : Nat → Nat × Nat) (fv : Bool) (j : Nat)
    (hw : (xf j).1 ≠ 4) :
    ∀ fuel i, i ≤ j → MonEvent.ack j ∈ (monRun xf fv fuel i).1 →
      (monRun xf fv fuel i).2 = some false ∧
      ∀ e ∈ (monRun xf fv fuel i).1, iterOf e ≤ j ∧ e ≠ MonEvent.wait j := by
  intro fuel
  induction fuel with
  | zero => intro i hij h; simp [monRun] at h
  | succ k ih =>
    intro i hij h
    by_cases h1 : (xf i).1 = 4
    · have hne : i ≠ j := by
        intro he; rw [he] at h1; exact hw h1
      by_cases h2 : (xf i).2 = 4
      · cases fv
        · rw [monRun_succ_once xf k i h1 h2] at h
          simp at h
          exact absurd h.symm hne
        · rw [monRun_succ_loop xf k i h1 h2] at h ⊢
          simp only [List.mem_cons] at h
          rcases h with h | h | h
          · injection h with hji
            exact absurd hji.symm hne
          · exact absurd h (by simp)
          · rcases ih (i + 1) (by omega) h with ⟨hres, hall⟩
            refine ⟨hres, ?_⟩
            intro e he
            simp only [List.mem_cons] at he
            rcases he with he | he | he
            · subst he
              exact ⟨by simpa [iterOf] using hij, by simp⟩
            · subst he
              refine ⟨by simpa [iterOf] using hij, by simpa using hne⟩
            · exact hall e he
      · rw [monRun_succ_rfail xf fv k i h1 h2] at h
        simp at h
        exact absurd h.symm hne
    · rw [monRun_succ_wfail xf fv k i h1] at h ⊢
      simp at h
      subst h
      refine ⟨rfl, ?_⟩
      intro e he
      simp at he
      subst he
      exact ⟨by simp [iterOf], by simp⟩

/-- If the wait read of iteration j is short and its event is in the
trace, the run ends there with failure and no event of a later
iteration occurs. -/
theorem monRun_stop_read (xf : Nat → Nat × Nat) (fv : Bool) (j : Nat)
    (hr : (xf j).2 ≠ 4) :
    ∀ fuel i, i ≤ j → MonEvent.wait j ∈ (monRun xf fv fuel i).1 →
      (monRun xf fv fuel i).2 = some false ∧
      ∀ e ∈ (monRun xf fv fuel i).1, iterOf e ≤ j := by
  intro fuel
  induction fuel with
  | zero => intro i hij h; simp [monRun] at h
  | succ k ih =>
    intro i hij h
    by_cases h1 : (xf i).1 = 4
    · by_cases h2 : (xf i).2 = 4
      · have hne : i ≠ j := by
          intro he; rw [he] at h2; exact hr h2
        cases fv
        · rw [monRun_succ_once xf k i h1 h2] at h
          simp at h
          exact absurd h.symm hne
        · rw [monRun_succ_loop xf k i h1 h2] at h ⊢
          simp only [List.mem_cons] at h
          rcases h with h | h | h
          · exact absurd h (by simp)
          · injection h with hji
            exact absurd hji.symm hne
          · rcases ih (i + 1) (by omega) h with ⟨hres, hall⟩
            refine ⟨hres, ?_⟩
            intro e he
            simp only [List.mem_cons] at he
            rcases he with he | he | he
            · subst he
              simpa [iterOf] using hij
            · subst he
              simpa [iterOf] using hij
            · exact hall e he
      · rw [monRun_succ_rfail xf fv k i h1 h2] at h ⊢
        simp at h
        subst h
        refine ⟨rfl, ?_⟩
        intro e he
        simp at he
        rcases he with he | he
        · subst he
          simp [iterOf]
        · subst he
          simp [iterOf]
    · rw [monRun_succ_wfail xf fv k i h1] at h
      simp at h

/-- The forever monitor loop never produces the success outcome: it can
only still be running or have exited with an I/O failure. -/
theorem monRun_no_true (xf : Nat → Nat × Nat) :
    ∀ (fuel i : Nat), (monRun xf true fuel i).2 ≠ some true := by
  intro fuel
  induction fuel with
  | zero => intro i; simp [monRun]
  | succ k ih =>
    intro i
    by_cases h1 : (xf i).1 = 4
    · by_cases h2 : (xf i).2 = 4
      · rw [monRun_succ_loop xf k i h1 h2]
        exact ih (i + 1)
      · rw [monRun_succ_rfail xf true k i h1 h2]
        simp
    · rw [monRun_succ_wfail xf true k i h1]
      simp

/-- Monitor events never map to the close event. -/
theorem evmap_no_close (l : List MonEvent) : Ev.closeDev ∉ l.map evOf := by
  intro h
  rcases List.mem_map.mp h with ⟨e, _, he⟩
  cases e <;> simp [evOf] at he

/-- The open event followed by monitor events contains no close. -/
theorem no_close_cons (l : List MonEvent) :
    Ev.closeDev ∉ Ev.openDev :: l.map evOf := by
  intro h
  rcases List.mem_cons.mp h with h | h
  · exact absurd h (by simp)
  · exact evmap_no_close l h

/-- Claim C6: with the single-shot flag (forever cleared) and a
successful first iteration, the monitor performs exactly one
acknowledge-then-wait body and the process exits with success, closing
the device file; with the forever flag set, the run never exits with
success and the loop's normal exit (the close) never happens. -/
theorem c6_single_shot (req : Req) (env : Env) (mem : Nat → Nat)
    (h1 : req.region = 0) (h2 : req.width = 4)
    (h3 : req.mode = Mode.monitor) :
    (req.forever = false → env.openOk = true → env.xfer 0 = (4, 4) →
      1 ≤ env.fuel →
      uioctl req env mem =
        ([Ev.openDev, Ev.ackDev 0, Ev.waitDev 0, Ev.closeDev],
          some 0, mem)) ∧
    (req.forever = true →
      (uioctl req env mem).2.1 ≠ some 0 ∧
      Ev.closeDev ∉ (uioctl req env mem).1) := by
  constructor
  · intro hf ho hx hfu
    obtain ⟨k, hk⟩ : ∃ k, env.fuel = k + 1 := ⟨env.fuel - 1, by omega⟩
    have hm : monRun env.xfer false (k + 1) 0 =
        ([MonEvent.ack 0, MonEvent.wait 0], some true) :=
      monRun_succ_once env.xfer k 0 (by rw [hx]) (by rw [hx])
    simp [uioctl, h1, h2, h3, ho, hf, hk, hm, evOf]
  · intro hf
    by_cases ho : env.openOk = true
    · rcases hmr : monRun env.xfer true env.fuel 0 with ⟨evs, r⟩
      have hnt := monRun_no_true env.xfer env.fuel 0
      rw [hmr] at hnt
      rcases r with _ | b
      · have htr : (uioctl req env mem).1 = Ev.openDev :: evs.map evOf := by
          simp [uioctl, h1, h2, h3, ho, hf, hmr]
        have hex : (uioctl req env mem).2.1 = none := by
          simp [uioctl, h1, h2, h3, ho, hf, hmr]
        refine ⟨by rw [hex]; simp, by rw [htr]; exact no_close_cons evs⟩
      · cases b
        · have htr : (uioctl req env mem).1 =
              Ev.openDev :: evs.map evOf := by
            simp [uioctl, h1, h2, h3, ho, hf, hmr]
          have hex : (uioctl req env mem).2.1 = some 1 := by
            simp [uioctl, h1, h2, h3, ho, hf, hmr]
          refine ⟨by rw [hex]; simp, by rw [htr]; exact no_close_cons evs⟩
        · exact absurd rfl hnt
    · have ho' : env.openOk = false := by
        cases hoo : env.openOk
        · rfl
        · exact absurd hoo ho
      constructor
      · simp [uioctl, h1, h2, h3, ho']
      · simp [uioctl, h1, h2, h3, ho']

/-- Witness for claim C6: a single-shot monitor run over an all-4-byte
transfer oracle performs exactly one iteration and exits with success. -/
theorem c6_single_shot_witness :
    uioctl reqMon1 envOk m0 =
      ([Ev.openDev, Ev.ackDev 0, Ev.waitDev 0, Ev.closeDev], some 0, m0) :=
  (c6_single_shot reqMon1 envOk m0 rfl rfl rfl).1 rfl rfl rfl (by decide)

/-- Claim C7: in every monitor iteration the acknowledge write strictly
precedes the wait read in the event trace; a short acknowledge write
ends the run with failure before the wait read of that iteration and
before any event of a later iteration; a short wait read ends the run
with failure before any event of a later iteration. -/
theorem c7_monitor_ordering (xf : Nat → Nat × Nat) (fv : Bool)
    (fuel j : Nat) :
    (MonEvent.wait j ∈ (monRun xf fv fuel 0).1 →
      ∃ l1 l2 l3, (monRun xf fv fuel 0).1 =
        l1 ++ MonEvent.ack j :: (l2 ++ MonEvent.wait j :: l3)) ∧
    ((xf j).1 ≠ 4 → MonEvent.ack j ∈ (monRun xf fv fuel 0).1 →
      (monRun xf fv fuel 0).2 = some false ∧
      MonEvent.wait j ∉ (monRun xf fv fuel 0).1 ∧
      ∀ e ∈ (monRun xf fv fuel 0).1, iterOf e ≤ j) ∧
    ((xf j).2 ≠ 4 → MonEvent.wait j ∈ (monRun xf fv fuel 0).1 →
      (monRun xf fv fuel 0).2 = some false ∧
      ∀ e ∈ (monRun xf fv fuel 0).1, iterOf e ≤ j) := by
  refine ⟨?_, ?_, ?_⟩
  · intro h
    exact (monRun_wait_split xf fv j fuel 0 h).2
  · intro hw hm
    rcases monRun_stop_write xf fv j hw fuel 0 (Nat.zero_le j) hm with
      ⟨hres, hall⟩
    refine ⟨hres, ?_, fun e he => (hall e he).1⟩
    intro hwj
    exact (hall _ hwj).2 rfl
  · intro hr hm
    exact monRun_stop_read xf fv j hr fuel 0 (Nat.zero_le j) hm

/-- Witness for claim C7: with a first wait read of 3 bytes the forever
monitor run fails after iteration 0 and its only events belong to
iteration 0. -/
theorem c7_monitor_ordering_witness :
    (monRun xferShortRead true 5 0).2 = some false ∧
    iterOf (MonEvent.ack 0) ≤ 0 :=
  ⟨((c7_monitor_ordering xferShortRead true 5 0).2.2 (by decide)
      (by decide)).1,
   ((c7_monitor_ordering xferShortRead true 5 0).2.2 (by decide)
      (by decide)).2 (MonEvent.ack 0) (by decide)⟩
